import Mathlib

/-!
Verification development for the s3lfs core (src/s3lfs/core.py): a shallow
embedding of its data model and of the operations named by the frozen claims,
followed by theorems settling the claims.

Conventions of the embedding:
* File contents are byte lists (List Nat).
* Working-tree trees and manifests are association lists keyed by the
  repo-relative posix path (String).  The source normalises every incoming
  path with Path(...)/.as_posix() before these functions run; the embedding
  takes the already-normalised string.
* External libraries (hashlib, gzip/zlib, botocore, fnmatch/glob/pathlib)
  are embedded by their documented behaviour; each such definition carries a
  doc comment saying exactly what is modelled and from where.
* The thread pools are embedded as sequential folds in submission order; the
  settled claims are insensitive to completion order.
-/

namespace S3LFS

/-- Byte strings: lists of byte values. -/
abbrev Bytes := List Nat

/-- Hex digit characters, as produced by hexdigest-style encoders. -/
def hexChar (n : Nat) : Char :=
  if n < 10 then Char.ofNat (48 + n) else Char.ofNat (87 + n)

/-- Two lowercase hex characters of one byte. -/
def byteHex (b : Nat) : List Char :=
  [hexChar ((b % 256) / 16), hexChar (b % 16)]

/-- Model of hashlib.sha256(...).hexdigest() as used by hash_file: an external
primitive, embedded by its contract — a deterministic digest of the raw file
bytes, injective on the inputs the spec's content-addressing relies on
(collision-freeness).  Concretely the model hex-encodes the content itself;
every theorem below uses only determinism and (on concrete inputs) in-equality
of digests of distinct contents. -/
def sha256Hex (data : Bytes) : String :=
  ⟨data.foldr (fun b acc => byteHex b ++ acc) []⟩

/-- Derived object key, from upload/remove_file/remove_subtree/download:
"{repo_prefix}/assets/{digest}/{path}.gz". -/
def s3KeyFor (pfx digest path : String) : String :=
  pfx ++ "/assets/" ++ digest ++ "/" ++ path ++ ".gz"

/-! ## fnmatch (Python stdlib), embedded from fnmatch.translate semantics

The manifest-side resolver calls fnmatch.fnmatch; the filesystem-side
resolver reaches fnmatch through glob/pathlib one path segment at a time.
Embedded: literal characters, "*" (matches any run of characters, including
"/", since fnmatch works on the flat string), "?" (any one character), and
"[...]" classes with "!" negation, ranges, a literal leading "]", and an
unclosed "[" taken literally — following fnmatch.translate. -/

/-- Membership of a character in a bracket-class body, with ranges; a
trailing "-" is literal, as in the regular-expression class fnmatch.translate
builds. -/
def classMem : List Char → Char → Bool
  | [], _ => false
  | [a], c => a = c
  | [a, '-'], c => a = c || c = '-'
  | a :: '-' :: b :: rest, c => (decide (a ≤ c) && decide (c ≤ b)) || classMem rest c
  | a :: rest, c => a = c || classMem rest c

/-- Scan for the closing "]" of a bracket class; returns the class body and
the remainder of the pattern, or none when the bracket is unclosed. -/
def scanClass : List Char → Option (List Char × List Char)
  | [] => none
  | c :: rest =>
    if c = ']' then some ([], rest)
    else (scanClass rest).map (fun p => (c :: p.1, p.2))

/-- Parse a bracket class body after an optional leading "!": a "]" in first
position is a literal member, then characters up to the closing "]". -/
def parseClassBody (neg : Bool) (l : List Char) : Option (Bool × List Char × List Char) :=
  match l with
  | [] => none
  | c :: rest =>
    if c = ']' then (scanClass rest).map (fun p => (neg, ']' :: p.1, p.2))
    else (scanClass (c :: rest)).map (fun p => (neg, p.1, p.2))

/-- Parse a bracket class right after the opening "[": an optional leading
"!" negates, a "]" in first position is a literal member, then characters up
to the closing "]".  Returns (negated, class body, rest of pattern); none
when the bracket is unclosed (fnmatch then treats "[" as a literal). -/
def parseClass (l : List Char) : Option (Bool × List Char × List Char) :=
  match l with
  | [] => none
  | c :: rest =>
    if c = '!' then parseClassBody true rest else parseClassBody false (c :: rest)

/-- One token of a compiled fnmatch pattern. -/
inductive Tok where
  | star : Tok
  | any : Tok
  | cls : Bool → List Char → Tok
  | lit : Char → Tok
  deriving DecidableEq, Repr

/-- Fuelled worker for tokenize; each step consumes at least one pattern
character and one unit of fuel, so length + 1 fuel always suffices. -/
def tokenizeAux : Nat → List Char → List Tok
  | 0, _ => []
  | _ + 1, [] => []
  | fuel + 1, c :: p =>
    if c = '*' then .star :: tokenizeAux fuel p
    else if c = '?' then .any :: tokenizeAux fuel p
    else if c = '[' then
      match parseClass p with
      | some (neg, cs, rest) => .cls neg cs :: tokenizeAux fuel rest
      | none => .lit '[' :: tokenizeAux fuel p
    else .lit c :: tokenizeAux fuel p

/-- Compile an fnmatch pattern to tokens, following fnmatch.translate:
"*", "?", bracket classes via parseClass, everything else literal. -/
def tokenize (l : List Char) : List Tok :=
  tokenizeAux (l.length + 1) l

/-- Try a continuation on every suffix of the string, longest first: the
unrolled search a "*" performs. -/
def matchStarAux {α : Type} (k : List α → Bool) : List α → Bool
  | [] => k []
  | c :: s' => k (c :: s') || matchStarAux k s'

/-- Match a token list against a character string; "star" may absorb any
number of characters (crossing "/", as fnmatch does on flat strings). -/
def matchToks : List Tok → List Char → Bool
  | [], s => s.isEmpty
  | .star :: ts, s => matchStarAux (matchToks ts) s
  | .any :: ts, s =>
    (match s with
     | [] => false
     | _ :: s' => matchToks ts s')
  | .cls neg cs :: ts, s =>
    (match s with
     | [] => false
     | c :: s' => (classMem cs c != neg) && matchToks ts s')
  | .lit c :: ts, s =>
    (match s with
     | [] => false
     | c' :: s' => (c = c') && matchToks ts s')

/-- fnmatch.fnmatch(name, pattern) on POSIX (normcase is the identity). -/
def fnmatchChars (name pat : List Char) : Bool :=
  matchToks (tokenize pat) name

/-- fnmatch on Lean strings. -/
def fnmatchStr (name pat : String) : Bool :=
  fnmatchChars name.data pat.data

/-! ## Path segmentation: Python's str.split("/") -/

/-- Split a character list on "/" — Python's str.split("/"): the empty
string yields one empty segment, and separators at the ends yield empty
segments. -/
def splitSegs : List Char → List (List Char)
  | [] => [[]]
  | c :: rest =>
    if c = '/' then [] :: splitSegs rest
    else
      match splitSegs rest with
      | [] => [[c]]
      | s :: ss => (c :: s) :: ss

/-- Join segments back with "/" — the inverse of splitSegs. -/
def joinSegs : List (List Char) → List Char
  | [] => []
  | [s] => s
  | s :: ss => s ++ '/' :: joinSegs ss

/-- Segments of a path string, as Python's path.split("/"). -/
def pathSegs (s : String) : List (List Char) :=
  splitSegs s.data

/-! ## The shared glob surface of the two resolvers -/

/-- Glob metacharacter test of _resolve_manifest_paths:
any of "*", "?", "[", "]" occurs in the pattern. -/
def hasGlobChars (s : String) : Bool :=
  s.data.any (fun c => c = '*' || c = '?' || c = '[' || c = ']')

/-- A tracked working tree: the list of regular-file paths (posix-relative),
each with its content bytes.  Directories are implicit. -/
abbrev Tree := List (String × Bytes)

/-- Manifest files mapping: path to digest, in insertion order (a Python
dict). -/
abbrev FilesMap := List (String × String)

/-- Python str.startswith on Lean strings. -/
def strStartsWith (s pre : String) : Bool :=
  pre.data.isPrefixOf s.data

/-- Python str.endswith("/"): the last character is "/". -/
def strEndsWithSlash (s : String) : Bool :=
  s.data.getLast? = some '/'

/-- A normalised relative pattern, the form Path(...).as_posix() yields for
in-repo inputs: it does not end in "/", and has no empty, "." or ".."
segments (so it is nonempty and has no leading or doubled "/").  Patterns
"." and ".." are excluded: the source resolves "." as the whole working
directory on the filesystem side but as nothing on the manifest side. -/
def normalizedPath (P : String) : Bool :=
  !strEndsWithSlash P &&
    !(splitSegs P.data).any (fun s => s.isEmpty || s = ['.'] || s = ['.', '.'])

/-- Membership of a file path in the tree (Path.is_file against a working
tree that consists exactly of the tracked files). -/
def isFileIn (tree : List String) (p : String) : Bool :=
  tree.contains p

/-- Path.is_dir against the same working tree: some tracked file lies
strictly below p. -/
def isDirIn (tree : List String) (p : String) : Bool :=
  tree.any (fun f => strStartsWith f (p ++ "/"))

/-- Matching of a pattern's "/"-segments against a path's segments, as
pathlib's Path.glob does for relative patterns: each non-"**" pattern
segment fnmatch-matches exactly one path segment ("*" cannot cross "/"),
and a "**" segment matches zero or more path segments. -/
def patSegsMatch : List (List Char) → List (List Char) → Bool
  | [], segs => segs.isEmpty
  | p :: ps, segs =>
    if p = ['*', '*'] then matchStarAux (patSegsMatch ps) segs
    else
      match segs with
      | [] => false
      | s :: ss => fnmatchChars s p && patSegsMatch ps ss

/-- glob.glob for a single-segment pattern (no "/"): candidates are the
single-segment entries of the working directory; a name beginning with "."
is matched only by a pattern that itself begins with "." (the glob module's
hidden-file rule); otherwise plain fnmatch.  For a pattern without
metacharacters glob.glob degenerates to an existence check, which this
definition also reproduces (a literal pattern fnmatch-matches only itself). -/
def globSingleMatch (pat : List Char) (name : List Char) : Bool :=
  (match name, pat with
   | '.' :: _, '.' :: _ => true
   | '.' :: _, _ => false
   | _, _ => true) && fnmatchChars name pat

/-- _resolve_filesystem_paths, evaluated against a working tree that
contains exactly the given file paths (the quantification the C3 property
uses).  An existing file resolves to itself; an existing directory to every
file beneath it; otherwise the pattern goes to pathlib's Path.glob when it
contains "/" and to glob.glob when it does not, and only files are kept.
Absolute patterns are outside the model (tracked paths are repo-relative). -/
def resolveFilesystemPaths (tree : List String) (path : String) : List String :=
  if isFileIn tree path then [path]
  else if isDirIn tree path then
    tree.filter (fun f => strStartsWith f (path ++ "/"))
  else if (pathSegs path).length > 1 then
    tree.filter (fun f => patSegsMatch (pathSegs path) (pathSegs f))
  else
    tree.filter (fun f =>
      (pathSegs f).length = 1 && globSingleMatch path.data f.data)

/-- Python str.split("**") used by _glob_match: greedy left-to-right scan
for the two-character separator. -/
def splitStarStar : List Char → List (List Char)
  | [] => [[]]
  | '*' :: '*' :: rest => [] :: splitStarStar rest
  | c :: rest =>
    match splitStarStar rest with
    | [] => [[c]]
    | s :: ss => (c :: s) :: ss

/-- Python str.rstrip("/"). -/
def rstripSlash (l : List Char) : List Char :=
  ((l.reverse).dropWhile (fun c => c = '/')).reverse

/-- Python str.lstrip("/"). -/
def lstripSlash (l : List Char) : List Char :=
  l.dropWhile (fun c => c = '/')

/-- _glob_match(file_path, pattern): with "**" in the pattern, split on
"**"; for exactly two parts, require the prefix (rstripped of "/") to be a
string prefix of the path and fnmatch the lstripped suffix against the
remaining path (itself lstripped of "/"); a pattern ending in "**" only
checks the prefix; more than two parts fall back to whole-string fnmatch.
Without "**", the pattern and path are split on "/" and must have the same
number of segments, each matching by fnmatch. -/
def globMatchManifest (filePath pattern : String) : Bool :=
  let parts := splitStarStar pattern.data
  if parts.length > 1 then
    match parts with
    | [p1, p2] =>
      let pre := rstripSlash p1
      let suf := lstripSlash p2
      if pre ≠ [] && ¬ (pre.isPrefixOf filePath.data) then false
      else if suf ≠ [] then
        let remaining :=
          if pre ≠ [] then lstripSlash (filePath.data.drop pre.length)
          else filePath.data
        fnmatchChars remaining suf
      else
        decide (pre = []) || pre.isPrefixOf filePath.data
    | _ => fnmatchChars filePath.data pattern.data
  else
    let pp := splitSegs pattern.data
    let fp := splitSegs filePath.data
    decide (pp.length = fp.length) &&
      (List.zip pp fp).all (fun z => fnmatchChars z.2 z.1)

/-- Association-list lookup, in dict order (first match). -/
def lookupA {α : Type} (m : List (String × α)) (k : String) : Option α :=
  match m with
  | [] => none
  | (k', v) :: rest => if k' = k then some v else lookupA rest k

/-- _resolve_manifest_paths over the files mapping: an exact key wins; a
pattern with glob characters filters by _glob_match; otherwise the pattern
is a directory prefix (with "/" appended unless already present), falling
back to exact equality when the prefix matches nothing. -/
def resolveManifestPaths (files : FilesMap) (path : String) : FilesMap :=
  match lookupA files path with
  | some h => [(path, h)]
  | none =>
    if hasGlobChars path then
      files.filter (fun e => globMatchManifest e.1 path)
    else
      let pre := if strEndsWithSlash path then path else path ++ "/"
      let m := files.filter (fun e => strStartsWith e.1 pre)
      if ¬ m.isEmpty then m
      else files.filter (fun e => e.1 = path)

/-! ## Deterministic gzip (compress_file / decompress_file)

compress_file fixes every metadata input of the encoder: level 5, no
embedded filename, modification time 0 — via GzipFile(filename="",
compresslevel=5, mtime=0) on the Python path and "gzip -n -c -5" on the
CLI path (chosen on Linux when a gzip binary exists).  The gzip container
(RFC 1952) is embedded concretely: magic, method, flags, mtime, XFL, OS
byte, then the DEFLATE body, then CRC-32 and length of the plain bytes.
The DEFLATE body itself is external code (zlib / GNU gzip); it is embedded
by its contract — a deterministic, invertible encoding of the input bytes
at a fixed level — with the identity as the concrete body.  The theorems
below use only determinism, invertibility, and the concrete header bytes:
CPython's gzip module writes OS byte 255, GNU gzip writes OS byte 3
(observed on gzip 1.12 / CPython 3.11, per RFC 1952 both are fixed
constants of the implementation, not of the input). -/

/-- Four little-endian bytes of a 32-bit value. -/
def le32 (n : Nat) : Bytes :=
  [n % 256, n / 256 % 256, n / 65536 % 256, n / 16777216 % 256]

/-- One bit step of the reflected CRC-32 (polynomial 0xEDB88320). -/
def crcStep (c : Nat) : Nat :=
  if c % 2 = 1 then Nat.xor (c / 2) 0xEDB88320 else c / 2

/-- Fold one byte into the CRC-32 state. -/
def crc32Byte (crc b : Nat) : Nat :=
  crcStep^[8] (Nat.xor crc (b % 256))

/-- CRC-32 of a byte string, as stored in the gzip trailer. -/
def crc32 (data : Bytes) : Nat :=
  Nat.xor (data.foldl crc32Byte 0xFFFFFFFF) 0xFFFFFFFF

/-- Modelled from the spec (§4.3) and the gzip container: the DEFLATE body
produced by the external compressor at the fixed level is a deterministic,
invertible encoding of the input bytes; the model takes the identity as
that encoding.  No theorem below depends on the body's concrete bytes,
only on these two contract properties. -/
def deflateBody (data : Bytes) : Bytes := data

/-- Inverse of the modelled DEFLATE body. -/
def inflateBody (body : Bytes) : Option Bytes := some body

/-- The ten header bytes of an RFC 1952 gzip member with no filename and
no extra fields: magic 1f 8b, method 8 (deflate), flags 0, 4 mtime bytes,
XFL 0 (mid-level compression), and the producer's OS byte. -/
def gzipHeader (osByte mtime : Nat) : Bytes :=
  [0x1f, 0x8b, 8, 0] ++ le32 mtime ++ [0, osByte]

/-- OS byte written by CPython's gzip module (always 255, "unknown"). -/
def pyGzipOsByte : Nat := 255

/-- OS byte written by GNU gzip on a Unix host (3). -/
def cliGzipOsByte : Nat := 3

/-- A complete gzip member: header, DEFLATE body, CRC-32 and length
(mod 2^32) of the plain bytes. -/
def gzipFrame (osByte mtime : Nat) (data : Bytes) : Bytes :=
  gzipHeader osByte mtime ++ deflateBody data ++
    le32 (crc32 data) ++ le32 (data.length % 4294967296)

/-- The method selection of compress_file / hash dispatch: "cli" when
sys.platform starts with "linux" and a gzip binary is on PATH, otherwise
"python". -/
inductive Platform where
  | linuxWithGzip : Platform
  | otherOrNoGzip : Platform
  deriving DecidableEq

/-- compress_file on a file with the given content bytes, with the clock
value the process would observe (Python's GzipFile embeds the current time
when mtime is None); the source pins mtime to 0 on the Python path and
passes -n on the CLI path, so the clock is ignored. -/
def compressFileBytesAt (plat : Platform) (now : Nat) (data : Bytes) : Bytes :=
  match plat with
  | .linuxWithGzip => gzipFrame cliGzipOsByte 0 data
  | .otherOrNoGzip => gzipFrame pyGzipOsByte 0 data

/-- compress_file's output bytes. -/
def compressFileBytes (plat : Platform) (data : Bytes) : Bytes :=
  compressFileBytesAt plat 0 data

/-- decompress_file: both the Python and the CLI method decode the
standard gzip container — magic check, 10-byte header, DEFLATE body,
8-byte trailer with CRC-32 and length check; none models the raised
decompression error (truncated or invalid stream). -/
def gzipDecompress (bs : Bytes) : Option Bytes :=
  if bs.length < 18 then none
  else if bs.take 3 ≠ [0x1f, 0x8b, 8] then none
  else
    let rest := bs.drop 10
    let body := rest.take (rest.length - 8)
    let tr := rest.drop (rest.length - 8)
    match inflateBody body with
    | none => none
    | some data =>
      if tr = le32 (crc32 data) ++ le32 (data.length % 4294967296) then some data
      else none

/-! ## The manifest document and the engine state -/

/-- A top-level value of the manifest JSON document: the configuration
entries are strings, the files entry is the path-to-digest mapping. -/
inductive PyVal where
  | str : String → PyVal
  | dict : FilesMap → PyVal
  deriving DecidableEq

/-- The manifest document: optional bucket_name and repoPfx (named
repo_prefix in the source; renamed here) written on initialisation, and
the files mapping. -/
structure Manifest where
  bucket_name : Option String
  repoPfx : Option String
  files : FilesMap
  deriving DecidableEq

/-- Python dict.get on the TOP level of the manifest document — what
track_modified_files actually calls (self.manifest.get(file)): a file path
hits a configuration key only if it is literally named like one. -/
def manifestTopGet (m : Manifest) (k : String) : Option PyVal :=
  if k = "bucket_name" then m.bucket_name.map PyVal.str
  else if k = "repo_prefix" then (Manifest.repoPfx m).map PyVal.str
  else if k = "files" then some (PyVal.dict m.files)
  else none

/-- Python equality of a str against an arbitrary fetched value: equal only
to an equal str; never equal to None or to a dict. -/
def pyStrEqVal (s : String) (v : Option PyVal) : Bool :=
  match v with
  | some (PyVal.str t) => s = t
  | _ => false

/-- Dict update-or-append on an association list, preserving insertion
order as Python dicts do. -/
def insertAssoc {α : Type} (m : List (String × α)) (k : String) (v : α) : List (String × α) :=
  match m with
  | [] => [(k, v)]
  | (k', v') :: rest => if k' = k then (k, v) :: rest else (k', v') :: insertAssoc rest k v

/-- Dict pop: remove the entry with the given key. -/
def eraseKeyA {α : Type} : List (String × α) → String → List (String × α)
  | [], _ => []
  | e :: rest, k => if e.1 = k then rest else e :: eraseKeyA rest k

/-- The world an engine run touches: the working tree (path to content),
the in-memory manifest, the manifest last persisted to disk, and the
object store (key to stored bytes). -/
structure EngineState where
  tree : Tree
  manifest : Manifest
  manifestDisk : Manifest
  s3 : List (String × Bytes)
  deriving DecidableEq

/-- The store effect of upload(file_path): derive the key from the content
digest, compress, and put (the MD5/ETag dedup probe only skips a PUT whose
bytes are already stored, so the resulting store is the same either way);
chunking does not trigger below the 5 GiB threshold, which covers every
state considered here. -/
def uploadEffect (plat : Platform) (pfx : String) (s3 : List (String × Bytes))
    (p : String) (content : Bytes) : List (String × Bytes) :=
  insertAssoc s3 (s3KeyFor pfx (sha256Hex content) p) (compressFileBytes plat content)

/-! ## track_modified_files -/

/-- The marking pass of track_modified_files: every manifest path whose
freshly computed digest is not (Python-)equal to self.manifest.get(path) —
the TOP-level lookup the source performs — is marked for upload.  Paths
missing from the tree are outside the model: hash_file raises there and
the sweep aborts (the "current_hash is None" branch of the source is
unreachable). -/
def trackModifiedMarks (m : Manifest) (tree : Tree) : List String :=
  (m.files.map Prod.fst).filter (fun p =>
    match lookupA tree p with
    | some content => ! pyStrEqVal (sha256Hex content) (manifestTopGet m p)
    | none => false)

/-- track_modified_files: mark, then parallel_upload the marked files with
needs_immediate_update=False (so upload does not touch the manifest), then
save_manifest — persisting the in-memory manifest exactly as it was.  When
nothing is marked there is no upload and no save. -/
def trackModifiedFiles (plat : Platform) (pfx : String) (st : EngineState) : EngineState :=
  let marks := trackModifiedMarks st.manifest st.tree
  if marks.isEmpty then st
  else
    let s3' := marks.foldl (fun acc p =>
      match lookupA st.tree p with
      | some content => uploadEffect plat pfx acc p content
      | none => acc) st.s3
    { st with s3 := s3', manifestDisk := st.manifest }

/-! ## track (interleaved path, the default) -/

/-- One _hash_and_upload_worker step over the accumulated (store, uploaded
results) pair: hash the file, read the stored digest from the in-memory
manifest's files mapping, skip when equal, otherwise upload and record
(path, new digest).  The resolver only yields paths that exist in the
tree, so the missing-file branch is unreachable. -/
def hashUploadStep (plat : Platform) (pfx : String) (m : Manifest) (tree : Tree)
    (acc : List (String × Bytes) × List (String × String)) (p : String) :
    List (String × Bytes) × List (String × String) :=
  match lookupA tree p with
  | some content =>
    let h := sha256Hex content
    if lookupA m.files p = some h then acc
    else (uploadEffect plat pfx acc.1 p content, acc.2 ++ [(p, h)])
  | none => acc

/-- track_interleaved(path): resolve against the filesystem, run the
hash-and-upload workers (sequentially in submission order — the settled
claims are insensitive to completion order), and if anything was uploaded
reload the manifest from disk, merge the recorded (path, digest) pairs
into its files mapping, and save.  Returns the new state and the number
of uploads. -/
def trackInterleaved (plat : Platform) (pfx : String) (st : EngineState)
    (path : String) : EngineState × Nat :=
  let resolved := resolveFilesystemPaths (st.tree.map Prod.fst) path
  let r := resolved.foldl (hashUploadStep plat pfx st.manifest st.tree) (st.s3, [])
  if r.2.isEmpty then ({ st with s3 := r.1 }, 0)
  else
    let newFiles := r.2.foldl (fun fs e => insertAssoc fs e.1 e.2) st.manifestDisk.files
    let m' := { st.manifestDisk with files := newFiles }
    ({ st with s3 := r.1, manifest := m', manifestDisk := m' }, r.2.length)

/-! ## download -/

/-- What a download call does and returns. -/
inductive DownloadResult where
  | notInManifest : DownloadResult
  | skipped : DownloadResult
  | done : Nat → DownloadResult
  | decompressError : DownloadResult
  deriving DecidableEq

/-- The fetch-and-decompress tail of download, entered when the target is
missing or stale: derive the key, list chunk keys (reconstituting in index
order when any exist; a missing object leaves its temporary file empty,
which the per-key handler swallows), decompress straight onto the target
path.  No digest of the decompressed bytes is recomputed and no rename is
involved: the decompressor writes to the target directly. -/
def downloadFetch (pfx : String) (st : EngineState) (p : String)
    (expected : String) : EngineState × DownloadResult :=
  let key := s3KeyFor pfx expected p
  let chunkCount := st.s3.countP (fun e => strStartsWith e.1 (key ++ ".chunk"))
  let keys :=
    if chunkCount > 0 then
      (List.range chunkCount).map (fun i => key ++ ".chunk" ++ toString i)
    else [key]
  let compressed := keys.foldl (fun acc k => acc ++ ((lookupA st.s3 k).getD [])) []
  match gzipDecompress compressed with
  | none => (st, .decompressError)
  | some data => ({ st with tree := insertAssoc st.tree p data }, .done data.length)

/-- download(file_path): not in the manifest yields a warning and None; an
existing target with a matching digest is skipped; otherwise fetch and
decompress onto the target. -/
def download (pfx : String) (st : EngineState) (p : String) :
    EngineState × DownloadResult :=
  match lookupA st.manifest.files p with
  | none => (st, .notInManifest)
  | some expected =>
    match lookupA st.tree p with
    | some content =>
      if sha256Hex content = expected then (st, .skipped)
      else downloadFetch pfx st p expected
    | none => downloadFetch pfx st p expected

/-! ## save_manifest -/

/-- Lexicographic comparison of character lists, for the sorted-keys
serialization. -/
def charListLe : List Char → List Char → Bool
  | [], _ => true
  | _ :: _, [] => false
  | a :: as, b :: bs => if a < b then true else if b < a then false else charListLe as bs

/-- Insert an entry into a key-sorted files list. -/
def insertSortedKey (e : String × String) : FilesMap → FilesMap
  | [] => [e]
  | f :: rest =>
    if charListLe e.1.data f.1.data then e :: f :: rest
    else f :: insertSortedKey e rest

/-- Sort the files mapping by key, as json.dump(..., sort_keys=True)
orders it. -/
def sortFiles (files : FilesMap) : FilesMap :=
  files.foldr insertSortedKey []

/-- Deterministic rendering of the files mapping with sorted keys —
json.dump(..., indent=4, sort_keys=True) is a function of the document
content, so equal documents serialize to identical bytes.  The rendering
is a model (quoted key-value pairs in sorted order), and only its
determinism and key-sorting are used. -/
def renderFiles (files : FilesMap) : String :=
  (sortFiles files).foldl
    (fun acc e => acc ++ "\"" ++ e.1 ++ "\": \"" ++ e.2 ++ "\", ") ""

/-- Everything save_manifest leaves behind: the target file's content, the
sibling .tmp file's content (none when absent), and whether an exception
propagated to the caller. -/
structure SaveOutcome where
  target : Option String
  tmp : Option String
  raised : Bool
  deriving DecidableEq

/-- save_manifest: dump to the sibling .tmp file, then atomically replace
the target.  The failure oracle says at which point of the dump+replace
the write raises (none = no failure): the source's handler prints the
error, unlinks the .tmp file if present, and returns normally — the
exception is NOT re-raised. -/
def saveManifest (target0 : Option String) (m : Manifest)
    (failAt : Option Nat) : SaveOutcome :=
  match failAt with
  | none => { target := some (renderFiles m.files), tmp := none, raised := false }
  | some _ => { target := target0, tmp := none, raised := false }

/-! ## remove_file and remove_subtree -/

/-- remove_file(file_path, keep_in_s3): pop the entry and save if present
(deleting the derived key from the store unless keep_in_s3); an untracked
path prints a warning and returns before any mutation or store call.
Returns (files mapping, whether save_manifest ran, keys deleted in S3). -/
def removeFile (pfx : String) (files : FilesMap) (p : String) (keep : Bool) :
    FilesMap × Bool × List String :=
  match lookupA files p with
  | none => (files, false, [])
  | some h => (eraseKeyA files p, true, if keep then [] else [s3KeyFor pfx h p])

/-- remove_subtree(directory, keep_in_s3): collect every manifest entry
whose path has the directory string as a PLAIN string prefix (str.startswith,
no "/" appended, no glob interpretation), return unchanged if none, else pop
them all, deleting each derived key unless keep_in_s3, and save once.
Returns (files mapping, keys deleted in S3). -/
def removeSubtree (pfx : String) (files : FilesMap) (dir : String) (keep : Bool) :
    FilesMap × List String :=
  let rem := files.filter (fun e => strStartsWith e.1 dir)
  if rem.isEmpty then (files, [])
  else
    (files.filter (fun e => ! strStartsWith e.1 dir),
     if keep then [] else rem.map (fun e => s3KeyFor pfx e.2 e.1))

/-! ## The retry decorator -/

/-- The exceptions that can cross the upload/download boundary, by their
botocore / urllib3 classes.  The subclass facts are external but
documented: NoCredentialsError and PartialCredentialsError derive from
BotoCoreError; invalid-access-key failures surface as ClientError with an
error code. -/
inductive PyExc where
  | noCredentialsError : PyExc
  | partialCredentialsError : PyExc
  | botoCoreOther : PyExc
  | clientError : String → PyExc
  | sslError : PyExc
  | runtimeError : PyExc
  | otherError : PyExc
  deriving DecidableEq

/-- isinstance(e, BotoCoreError), per botocore's exception hierarchy. -/
def isBotoCoreError : PyExc → Bool
  | .noCredentialsError => true
  | .partialCredentialsError => true
  | .botoCoreOther => true
  | _ => false

/-- isinstance(e, ClientError). -/
def isClientError : PyExc → Bool
  | .clientError _ => true
  | _ => false

/-- isinstance(e, urllib3 SSLError). -/
def isSslError : PyExc → Bool
  | .sslError => true
  | _ => false

/-- The handler class tuple of the decorator on upload and download:
retry(3, (BotoCoreError, ClientError, SSLError)). -/
def retryCaught (e : PyExc) : Bool :=
  isBotoCoreError e || isClientError e || isSslError e

/-- The retry loop with the remaining in-loop attempts as fuel: while
attempt < times, run the body; a caught exception increments attempt, an
uncaught one propagates; when the loop budget is exhausted the body runs
once more OUTSIDE the try, so its outcome propagates as-is.  outcomes k is
the k-th execution's result; the returned Nat counts executions. -/
def retryGo {α : Type} (outcomes : Nat → Except PyExc α) (attempt : Nat) :
    Nat → Except PyExc α × Nat
  | 0 => (outcomes attempt, attempt + 1)
  | remaining + 1 =>
    match outcomes attempt with
    | .ok a => (.ok a, attempt + 1)
    | .error e =>
      if retryCaught e then retryGo outcomes (attempt + 1) remaining
      else (.error e, attempt + 1)

/-- retry(times, ...) applied to a body whose k-th execution yields
outcomes k. -/
def retryRun {α : Type} (times : Nat) (outcomes : Nat → Except PyExc α) :
    Except PyExc α × Nat :=
  retryGo outcomes 0 times

/-! ## Supporting lemmas -/

theorem splitSegs_ne_nil (l : List Char) : splitSegs l ≠ [] := by
  match l with
  | [] => simp [splitSegs]
  | c :: rest =>
    simp only [splitSegs]
    split
    · simp
    · rcases h : splitSegs rest with _ | ⟨s, ss⟩ <;> simp

theorem joinSegs_splitSegs (l : List Char) : joinSegs (splitSegs l) = l := by
  induction l with
  | nil => simp [splitSegs, joinSegs]
  | cons c rest ih =>
    simp only [splitSegs]
    split
    · rename_i hc
      subst hc
      rcases h : splitSegs rest with _ | ⟨s, ss⟩
      · exact absurd h (splitSegs_ne_nil rest)
      · rw [h] at ih
        simp only [joinSegs]
        rw [← ih]
        rcases ss with _ | ⟨s', ss'⟩ <;> simp [joinSegs]
    · rcases h : splitSegs rest with _ | ⟨s, ss⟩
      · exact absurd h (splitSegs_ne_nil rest)
      · rw [h] at ih
        rcases ss with _ | ⟨s', ss'⟩ <;>
          simp only [joinSegs, List.cons_append] at ih ⊢ <;> rw [ih]

theorem splitSegs_injective {a b : List Char} (h : splitSegs a = splitSegs b) : a = b := by
  have := joinSegs_splitSegs a
  rw [h, joinSegs_splitSegs b] at this
  exact this.symm

theorem lookupA_eq_none_iff {α : Type} (m : List (String × α)) (k : String) :
    lookupA m k = none ↔ k ∉ m.map Prod.fst := by
  induction m with
  | nil => simp [lookupA]
  | cons e rest ih =>
    simp only [lookupA, List.map_cons, List.mem_cons]
    split
    · rename_i he
      subst he
      simp
    · rename_i he
      rw [ih]
      simp only [not_or]
      constructor
      · intro hn
        exact ⟨fun hk => he hk.symm, hn⟩
      · intro hn
        exact hn.2

theorem lookupA_isSome_of_mem {α : Type} {m : List (String × α)} {k : String}
    (h : k ∈ m.map Prod.fst) : ∃ v, lookupA m k = some v := by
  rcases he : lookupA m k with _ | v
  · exact absurd h ((lookupA_eq_none_iff m k).1 he)
  · exact ⟨v, rfl⟩

theorem mem_of_lookupA_isSome {α : Type} {m : List (String × α)} {k : String} {v : α}
    (h : lookupA m k = some v) : k ∈ m.map Prod.fst := by
  by_contra hmem
  rw [(lookupA_eq_none_iff m k).2 hmem] at h
  cases h

theorem insertAssoc_lookup_self {α : Type} (m : List (String × α)) (k : String) (v : α) :
    lookupA (insertAssoc m k v) k = some v := by
  induction m with
  | nil => simp [insertAssoc, lookupA]
  | cons e rest ih =>
    simp only [insertAssoc]
    split
    · simp [lookupA]
    · rename_i he
      simp only [lookupA]
      rw [if_neg he]
      exact ih

theorem insertAssoc_lookup_other {α : Type} (m : List (String × α)) (k k' : String) (v : α)
    (h : k' ≠ k) : lookupA (insertAssoc m k v) k' = lookupA m k' := by
  induction m with
  | nil =>
    show (if k = k' then some v else lookupA [] k') = lookupA [] k'
    exact if_neg (fun hh => h hh.symm)
  | cons e rest ih =>
    simp only [insertAssoc]
    split
    · rename_i he
      subst he
      simp only [lookupA]
      rw [if_neg (fun hh => h hh.symm), if_neg (fun hh => h hh.symm)]
    · simp only [lookupA]
      split
      · rfl
      · exact ih

theorem foldl_insertAssoc_lookup_notmem {α : Type} (l : List (String × α))
    (fs0 : List (String × α)) (p : String) (h : p ∉ l.map Prod.fst) :
    lookupA (l.foldl (fun fs e => insertAssoc fs e.1 e.2) fs0) p = lookupA fs0 p := by
  induction l generalizing fs0 with
  | nil => rfl
  | cons e rest ih =>
    simp only [List.map_cons, List.mem_cons] at h
    push_neg at h
    simp only [List.foldl_cons]
    rw [ih _ h.2, insertAssoc_lookup_other _ _ _ _ h.1]

theorem foldl_insertAssoc_lookup_mem {α : Type} (l : List (String × α))
    (fs0 : List (String × α)) (p : String) (v : α)
    (hmem : p ∈ l.map Prod.fst) (hval : ∀ e ∈ l, e.1 = p → e.2 = v) :
    lookupA (l.foldl (fun fs e => insertAssoc fs e.1 e.2) fs0) p = some v := by
  induction l generalizing fs0 with
  | nil => simp at hmem
  | cons e rest ih =>
    simp only [List.foldl_cons]
    by_cases hrest : p ∈ rest.map Prod.fst
    · exact ih _ hrest (fun f hf hp => hval f (List.mem_cons_of_mem e hf) hp)
    · have he : e.1 = p := by
        simp only [List.map_cons, List.mem_cons] at hmem
        rcases hmem with h | h
        · exact h.symm
        · exact absurd h hrest
      have hv : e.2 = v := hval e (List.mem_cons_self e rest) he
      rw [foldl_insertAssoc_lookup_notmem _ _ _ hrest, he, hv]
      exact insertAssoc_lookup_self fs0 p v

theorem map_fst_filter_key {α : Type} (l : List (String × α)) (q : String → Bool) :
    (l.filter (fun e => q e.1)).map Prod.fst = (l.map Prod.fst).filter q := by
  induction l with
  | nil => rfl
  | cons e rest ih =>
    simp only [List.filter_cons, List.map_cons]
    by_cases hq : q e.1 = true
    · simp [hq, ih]
    · simp only [Bool.not_eq_true] at hq
      simp [hq, ih]

theorem foldl_id_of_steps_id {α β : Type} (f : α → β → α) (l : List β)
    (h : ∀ b ∈ l, ∀ a, f a b = a) : ∀ a, l.foldl f a = a := by
  induction l with
  | nil => intro a; rfl
  | cons b rest ih =>
    intro a
    simp only [List.foldl_cons]
    rw [h b (List.mem_cons_self b rest) a]
    exact ih (fun x hx => h x (List.mem_cons_of_mem b hx)) a

/-! ## Claim C1 -/

/-- Claim C1: the claim says track_modified_files re-uploads a path iff its
current SHA-256 differs from files[path].  The source instead compares
against the TOP-level manifest.get(path) — the bug the spec flags.  At the
failing input (files = \x7b"a.txt" ↦ SHA256 of byte 65\x7d and an unchanged
file on disk) the top-level lookup yields None, so the unchanged file is
still marked for re-upload, although its digest equals files["a.txt"]. -/
theorem trackModified_marks_unchanged_file_bug :
    trackModifiedMarks
        (Manifest.mk (some "bkt") (some "s3lfs") [("a.txt", sha256Hex [65])])
        [("a.txt", [65])] = ["a.txt"] ∧
    lookupA ([("a.txt", sha256Hex [65])] : FilesMap) "a.txt" = some (sha256Hex [65]) ∧
    manifestTopGet
        (Manifest.mk (some "bkt") (some "s3lfs") [("a.txt", sha256Hex [65])])
        "a.txt" = none := by
  decide

/-! ## Claim C2 -/

/-- Claim C2: the claim (spec scenario S4) says that after
track_modified_files the persisted files entry of a rewritten file maps to
the digest of the new content.  The source uploads the new object but
calls upload with needs_immediate_update=False and never merges the new
digests before save_manifest, so the persisted entry still maps to the OLD
digest: with third.txt tracked at SHA256 of byte 65 and rewritten to byte
66, the saved manifest still maps third.txt to the old digest even though
the new object was uploaded under the new digest's key. -/
theorem trackModified_does_not_update_manifest_bug :
    (trackModifiedFiles Platform.otherOrNoGzip "s3lfs"
        (EngineState.mk [("third.txt", [66])]
          (Manifest.mk (some "bkt") (some "s3lfs") [("third.txt", sha256Hex [65])])
          (Manifest.mk (some "bkt") (some "s3lfs") [("third.txt", sha256Hex [65])])
          [])).manifestDisk.files = [("third.txt", sha256Hex [65])] ∧
    sha256Hex [65] ≠ sha256Hex [66] ∧
    lookupA (trackModifiedFiles Platform.otherOrNoGzip "s3lfs"
        (EngineState.mk [("third.txt", [66])]
          (Manifest.mk (some "bkt") (some "s3lfs") [("third.txt", sha256Hex [65])])
          (Manifest.mk (some "bkt") (some "s3lfs") [("third.txt", sha256Hex [65])])
          [])).s3
      (s3KeyFor "s3lfs" (sha256Hex [66]) "third.txt")
      = some (compressFileBytes Platform.otherOrNoGzip [66]) := by
  decide

/-! ## Claim C5 -/

/-- Claim C5, counterexample: the claim says a failed write surfaces the
error to the caller.  At a concrete failing write (failure oracle some 0)
save_manifest deletes the temporary file and returns normally — raised is
false, the caller sees success. -/
theorem saveManifest_swallow_counterexample :
    saveManifest (some "old") (Manifest.mk none none [("a.txt", "h")]) (some 0)
      = SaveOutcome.mk (some "old") none false := by
  decide

/-- Claim C5, amended: save_manifest writes a sibling temporary file and
atomically replaces the target, so the target is never partially written
(it holds either its previous content or the full new rendering); on any
failure the temporary file is deleted — but the exception is swallowed
(printed), never re-raised to the caller. -/
theorem saveManifest_atomic_no_raise (target0 : Option String) (m : Manifest)
    (failAt : Option Nat) :
    (saveManifest target0 m failAt).tmp = none ∧
    (saveManifest target0 m failAt).raised = false ∧
    (saveManifest target0 m failAt).target
      = (if failAt.isSome then target0 else some (renderFiles m.files)) := by
  cases failAt <;> simp [saveManifest]

/-! ## Claim C8 -/

/-- Claim C8, counterexample: the claim says remove_subtree removes exactly
what the manifest-side resolver matches, so "data" must not remove
"database.txt".  The source filters by plain str.startswith: with the
manifest \x7b"database.txt" ↦ h\x7d, remove_subtree("data") empties the
manifest although the resolver matches nothing. -/
theorem removeSubtree_plain_prefix_counterexample :
    (removeSubtree "s3lfs" [("database.txt", "h")] "data" true).1 = [] ∧
    resolveManifestPaths [("database.txt", "h")] "data" = [] := by
  decide

/-- Claim C8, amended: remove_subtree removes exactly the manifest entries
whose path has the pattern as a plain string prefix (str.startswith — no
"/" boundary, no glob interpretation), and deletes the removed entries'
derived keys from the store iff keep_in_s3 is false. -/
theorem removeSubtree_prefix_semantics (pfx : String) (files : FilesMap)
    (dir : String) (keep : Bool) (p : String) :
    (p ∈ (removeSubtree pfx files dir keep).1.map Prod.fst ↔
      p ∈ files.map Prod.fst ∧ strStartsWith p dir = false) ∧
    (removeSubtree pfx files dir keep).2
      = (if keep then []
         else (files.filter (fun e => strStartsWith e.1 dir)).map
           (fun e => s3KeyFor pfx e.2 e.1)) := by
  have hres : removeSubtree pfx files dir keep
      = (if (files.filter (fun e => strStartsWith e.1 dir)).isEmpty then (files, [])
         else (files.filter (fun e => ! strStartsWith e.1 dir),
               if keep then []
               else (files.filter (fun e => strStartsWith e.1 dir)).map
                 (fun e => s3KeyFor pfx e.2 e.1))) := rfl
  by_cases hrem : (files.filter (fun e => strStartsWith e.1 dir)).isEmpty = true
  · have hfil : files.filter (fun e => strStartsWith e.1 dir) = [] :=
      List.isEmpty_iff.1 hrem
    have hall : ∀ e ∈ files, strStartsWith e.1 dir = false := by
      intro e he
      by_contra hc
      simp only [Bool.not_eq_false] at hc
      have : e ∈ files.filter (fun e => strStartsWith e.1 dir) :=
        List.mem_filter.2 ⟨he, hc⟩
      rw [hfil] at this
      cases this
    rw [hres, if_pos hrem]
    constructor
    · constructor
      · intro hp
        rcases List.mem_map.1 hp with ⟨e, he, hfst⟩
        exact ⟨hp, hfst ▸ hall e he⟩
      · intro hp
        exact hp.1
    · rw [hfil]
      cases keep <;> simp
  · rw [hres, if_neg hrem]
    constructor
    · constructor
      · intro hp
        rcases List.mem_map.1 hp with ⟨e, he, hfst⟩
        rcases List.mem_filter.1 he with ⟨hmem, hpred⟩
        simp only [Bool.not_eq_true'] at hpred
        exact ⟨List.mem_map.2 ⟨e, hmem, hfst⟩, hfst ▸ hpred⟩
      · intro hp
        rcases List.mem_map.1 hp.1 with ⟨e, he, hfst⟩
        refine List.mem_map.2 ⟨e, List.mem_filter.2 ⟨he, ?_⟩, hfst⟩
        rw [Bool.not_eq_true', hfst, hp.2]
    · rfl

/-! ## Claim C9 -/

/-- Claim C9, counterexample: the claim says credential errors are never
retried.  NoCredentialsError subclasses BotoCoreError, which is in the
decorator's handler tuple: a body that raises it on every execution is run
4 times (3 retries) before the error propagates. -/
theorem retry_credentials_retried_counterexample :
    retryRun 3 (fun _ => (Except.error PyExc.noCredentialsError : Except PyExc Unit))
      = (Except.error PyExc.noCredentialsError, 4) ∧
    retryCaught PyExc.noCredentialsError = true := by
  exact ⟨rfl, rfl⟩

/-- The retry loop under uniformly caught failures: the body runs once per
loop iteration plus once outside the try, and the final execution's
outcome propagates as-is. -/
theorem retryGo_all_caught {α : Type} (outcomes : Nat → Except PyExc α) :
    ∀ (remaining attempt : Nat),
      (∀ k, attempt ≤ k → k < attempt + remaining →
        ∃ e, outcomes k = Except.error e ∧ retryCaught e = true) →
      retryGo outcomes attempt remaining
        = (outcomes (attempt + remaining), attempt + remaining + 1) := by
  intro remaining
  induction remaining with
  | zero => intro attempt _; rfl
  | succ n ih =>
    intro attempt h
    obtain ⟨e, he, hc⟩ := h attempt (Nat.le_refl _) (by omega)
    simp only [retryGo]
    rw [he]
    simp only [hc, if_true]
    rw [ih (attempt + 1) (fun k hk1 hk2 => h k (by omega) (by omega))]
    have harg : attempt + 1 + n = attempt + (n + 1) := by omega
    rw [harg]

/-- Claim C9, amended: retry(3, (BotoCoreError, ClientError, SSLError))
executes the body at most times+1 = 4 times and propagates the final
execution's outcome unchanged; the caught class includes the credential
errors — NoCredentialsError and PartialCredentialsError subclass
BotoCoreError, and invalid-access-key failures are ClientErrors — so
credential errors raised inside the body ARE retried. -/
theorem retry_budget_and_catch_class {α : Type} (times : Nat)
    (outcomes : Nat → Except PyExc α)
    (h : ∀ k, k < times → ∃ e, outcomes k = Except.error e ∧ retryCaught e = true) :
    retryRun times outcomes = (outcomes times, times + 1) ∧
    retryCaught PyExc.noCredentialsError = true ∧
    retryCaught PyExc.partialCredentialsError = true ∧
    (∀ c, retryCaught (PyExc.clientError c) = true) := by
  refine ⟨?_, rfl, rfl, fun c => rfl⟩
  have := retryGo_all_caught outcomes times 0 (fun k hk1 hk2 => h k (by omega))
  simpa [retryRun] using this

/-- Claim C9, witness: the amended theorem at times = 3 and a body that
always raises a (transient) TLS error. -/
theorem retry_budget_and_catch_class_witness :
    retryRun 3 (fun _ => (Except.error PyExc.sslError : Except PyExc Unit))
      = (Except.error PyExc.sslError, 4) ∧
    retryCaught PyExc.noCredentialsError = true ∧
    retryCaught PyExc.partialCredentialsError = true ∧
    (∀ c, retryCaught (PyExc.clientError c) = true) :=
  retry_budget_and_catch_class 3 (fun _ => Except.error PyExc.sslError)
    (fun _ _ => ⟨PyExc.sslError, rfl, rfl⟩)

/-! ## Claim C10 -/

/-- Claim C10: remove_file on a path absent from the files mapping leaves
the mapping unchanged, never calls save_manifest (so the on-disk manifest
is untouched), and issues no S3 deletion — for either keep_in_s3. -/
theorem removeFile_untracked_noop (pfx : String) (files : FilesMap) (p : String)
    (keep : Bool) (h : lookupA files p = none) :
    removeFile pfx files p keep = (files, false, []) := by
  unfold removeFile
  rw [h]

/-- Claim C10, witness: a concrete untracked path. -/
theorem removeFile_untracked_noop_witness :
    removeFile "s3lfs" [("a.txt", "h")] "b.txt" false = ([("a.txt", "h")], false, []) :=
  removeFile_untracked_noop "s3lfs" [("a.txt", "h")] "b.txt" false (by decide)

/-! ## Claim C6 -/

/-- Decoding a well-formed gzip member recovers the plain bytes, for any
producer OS byte. -/
theorem gzipDecompress_frame (osByte : Nat) (data : Bytes) :
    gzipDecompress (gzipFrame osByte 0 data) = some data := by
  have hfr : gzipFrame osByte 0 data
      = gzipHeader osByte 0
          ++ (data ++ (le32 (crc32 data) ++ le32 (data.length % 4294967296))) := by
    simp [gzipFrame, deflateBody, List.append_assoc]
  have hlen : (gzipFrame osByte 0 data).length = 18 + data.length := by
    rw [hfr]
    simp [gzipHeader, le32]
    omega
  have htake : (gzipFrame osByte 0 data).take 3 = [0x1f, 0x8b, 8] := by
    rw [hfr]
    simp [gzipHeader, le32]
  have hdrop : (gzipFrame osByte 0 data).drop 10
      = data ++ (le32 (crc32 data) ++ le32 (data.length % 4294967296)) := by
    rw [hfr]
    have h10 : (gzipHeader osByte 0).length = 10 := by simp [gzipHeader, le32]
    rw [← h10, List.drop_left]
  have htr : (le32 (crc32 data) ++ le32 (data.length % 4294967296)).length = 8 := by
    simp [le32]
  rw [gzipDecompress.eq_def]
  rw [hlen, htake, hdrop]
  rw [if_neg (by omega)]
  rw [if_neg (by simp)]
  have hrl : (data ++ (le32 (crc32 data) ++ le32 (data.length % 4294967296))).length - 8
      = data.length := by
    simp only [List.length_append, htr]
    omega
  simp only [hrl]
  rw [List.take_left, List.drop_left]
  simp [inflateBody]

/-- Claim C6, counterexample: the claim says compressed bytes are identical
across platforms.  On Linux compress_file shells out to the gzip CLI (OS
header byte 3); elsewhere it uses Python's gzip module (OS header byte
255): already the empty file compresses to different bytes. -/
theorem compress_cross_platform_counterexample :
    compressFileBytes Platform.linuxWithGzip []
      ≠ compressFileBytes Platform.otherOrNoGzip [] := by
  decide

/-- Claim C6, amended: for a fixed platform (hence a fixed method),
compress_file is a function of the file bytes alone — the clock the gzip
container would embed is pinned to zero (mtime=0 on the Python path, -n on
the CLI path), the filename is omitted and the level is fixed at 5 — so
repeated runs produce identical bytes; and decompress_file inverts
compress_file exactly.  Byte-identity across platforms fails (see the
counterexample): the two methods write different gzip OS header bytes. -/
theorem compress_deterministic_roundtrip (plat : Platform) (now now' : Nat)
    (data : Bytes) :
    compressFileBytesAt plat now data = compressFileBytesAt plat now' data ∧
    gzipDecompress (compressFileBytes plat data) = some data := by
  constructor
  · cases plat <;> rfl
  · cases plat <;> exact gzipDecompress_frame _ data

/-! ## Claim C4 -/

/-- Claim C4, counterexample: the claim says download recomputes the
SHA-256 of the decompressed bytes, and on a mismatch deletes the temporary
file, raises a verification error and leaves the target unchanged.  With
the manifest expecting the digest of byte 65 but the stored object holding
the compression of byte 66, download succeeds (returns the byte count) and
writes the mismatching bytes to the target: no verification happens. -/
theorem download_no_verify_counterexample :
    (download "s3lfs"
        (EngineState.mk []
          (Manifest.mk (some "bkt") (some "s3lfs") [("f.txt", sha256Hex [65])])
          (Manifest.mk (some "bkt") (some "s3lfs") [("f.txt", sha256Hex [65])])
          [(s3KeyFor "s3lfs" (sha256Hex [65]) "f.txt",
            compressFileBytes Platform.otherOrNoGzip [66])])
        "f.txt").2 = DownloadResult.done 1 ∧
    lookupA (download "s3lfs"
        (EngineState.mk []
          (Manifest.mk (some "bkt") (some "s3lfs") [("f.txt", sha256Hex [65])])
          (Manifest.mk (some "bkt") (some "s3lfs") [("f.txt", sha256Hex [65])])
          [(s3KeyFor "s3lfs" (sha256Hex [65]) "f.txt",
            compressFileBytes Platform.otherOrNoGzip [66])])
        "f.txt").1.tree "f.txt" = some [66] ∧
    sha256Hex [66] ≠ sha256Hex [65] := by
  decide

/-- Claim C4, amended: when the target is missing or stale, download
fetches the object for the manifest digest's derived key, decompresses it
directly onto the target path and returns the byte count — whatever the
decompressed bytes hash to.  No SHA-256 is recomputed, no temporary-file
rename guards the target: the fetched content is installed even when its
digest does not match the manifest. -/
theorem download_writes_unverified_bytes (pfx : String) (st : EngineState)
    (p : String) (expected : String) (bs d : Bytes)
    (hman : lookupA st.manifest.files p = some expected)
    (hstale : lookupA st.tree p = none ∨
      ∃ c, lookupA st.tree p = some c ∧ sha256Hex c ≠ expected)
    (hnochunks : st.s3.countP
      (fun e => strStartsWith e.1 (s3KeyFor pfx expected p ++ ".chunk")) = 0)
    (hs3 : lookupA st.s3 (s3KeyFor pfx expected p) = some bs)
    (hdec : gzipDecompress bs = some d) :
    download pfx st p
      = ({ st with tree := insertAssoc st.tree p d }, DownloadResult.done d.length) := by
  have h0 : ¬ ((0 : Nat) > 0) := by omega
  have hfetch : downloadFetch pfx st p expected
      = ({ st with tree := insertAssoc st.tree p d }, DownloadResult.done d.length) := by
    simp only [downloadFetch, hnochunks, if_neg h0, List.foldl_cons, List.foldl_nil,
      List.nil_append, hs3, Option.getD_some, hdec]
  rcases hstale with hnone | ⟨c, hc, hne⟩
  · simp only [download, hman, hnone]
    exact hfetch
  · simp only [download, hman, hc, if_neg hne]
    exact hfetch

/-- Claim C4, witness: the amended theorem at the counterexample's state —
the fetched object decompresses to byte 66 while the manifest expects the
digest of byte 65; download still installs byte 66 and reports success. -/
theorem download_writes_unverified_bytes_witness :
    download "s3lfs"
        (EngineState.mk []
          (Manifest.mk (some "bkt") (some "s3lfs") [("f.txt", sha256Hex [65])])
          (Manifest.mk (some "bkt") (some "s3lfs") [("f.txt", sha256Hex [65])])
          [(s3KeyFor "s3lfs" (sha256Hex [65]) "f.txt",
            compressFileBytes Platform.otherOrNoGzip [66])])
        "f.txt"
      = ({ EngineState.mk []
            (Manifest.mk (some "bkt") (some "s3lfs") [("f.txt", sha256Hex [65])])
            (Manifest.mk (some "bkt") (some "s3lfs") [("f.txt", sha256Hex [65])])
            [(s3KeyFor "s3lfs" (sha256Hex [65]) "f.txt",
              compressFileBytes Platform.otherOrNoGzip [66])] with
            tree := insertAssoc [] "f.txt" [66] }, DownloadResult.done 1) :=
  download_writes_unverified_bytes "s3lfs" _ "f.txt" (sha256Hex [65])
    (compressFileBytes Platform.otherOrNoGzip [66]) [66]
    (by decide) (Or.inl (by decide)) (by decide) (by decide) (by decide)

/-! ## Claim C7 -/

theorem resolveFilesystemPaths_subset (tree : List String) (path : String) :
    ∀ p ∈ resolveFilesystemPaths tree path, p ∈ tree := by
  intro p hp
  unfold resolveFilesystemPaths at hp
  split_ifs at hp with h1 h2 h3
  · rcases List.mem_singleton.1 hp with rfl
    simpa [isFileIn] using h1
  · exact (List.mem_filter.1 hp).1
  · exact (List.mem_filter.1 hp).1
  · exact (List.mem_filter.1 hp).1

theorem hashUploadStep_snd_mono (plat : Platform) (pfx : String) (m : Manifest)
    (tree : Tree) (acc : List (String × Bytes) × List (String × String)) (p : String) :
    ∃ u, (hashUploadStep plat pfx m tree acc p).2 = acc.2 ++ u := by
  unfold hashUploadStep
  rcases h : lookupA tree p with _ | c
  · exact ⟨[], (List.append_nil _).symm⟩
  · simp only []
    split
    · exact ⟨[], (List.append_nil _).symm⟩
    · exact ⟨[(p, sha256Hex c)], rfl⟩

theorem foldl_hashUpload_snd_mono (plat : Platform) (pfx : String) (m : Manifest)
    (tree : Tree) (l : List String) :
    ∀ acc, ∃ u, ((l.foldl (hashUploadStep plat pfx m tree) acc).2 = acc.2 ++ u) := by
  induction l with
  | nil => exact fun acc => ⟨[], (List.append_nil _).symm⟩
  | cons q rest ih =>
    intro acc
    simp only [List.foldl_cons]
    obtain ⟨u1, hu1⟩ := hashUploadStep_snd_mono plat pfx m tree acc q
    obtain ⟨u2, hu2⟩ := ih (hashUploadStep plat pfx m tree acc q)
    exact ⟨u1 ++ u2, by rw [hu2, hu1, List.append_assoc]⟩

theorem foldl_hashUpload_covers (plat : Platform) (pfx : String) (m : Manifest)
    (tree : Tree) (l : List String) :
    ∀ acc, ∀ p ∈ l, ∀ content, lookupA tree p = some content →
      lookupA m.files p = some (sha256Hex content) ∨
      (p, sha256Hex content) ∈ (l.foldl (hashUploadStep plat pfx m tree) acc).2 := by
  induction l with
  | nil => intro acc p hp; cases hp
  | cons q rest ih =>
    intro acc p hp content hct
    simp only [List.foldl_cons]
    rcases List.mem_cons.1 hp with rfl | hp'
    · by_cases hlk : lookupA m.files p = some (sha256Hex content)
      · exact Or.inl hlk
      · right
        have hstep : (hashUploadStep plat pfx m tree acc p).2
            = acc.2 ++ [(p, sha256Hex content)] := by
          simp only [hashUploadStep, hct]
          rw [if_neg hlk]
        obtain ⟨u, hu⟩ := foldl_hashUpload_snd_mono plat pfx m tree rest
          (hashUploadStep plat pfx m tree acc p)
        rw [hu, hstep]
        simp
    · exact ih (hashUploadStep plat pfx m tree acc q) p hp' content hct

theorem foldl_hashUpload_sound (plat : Platform) (pfx : String) (m : Manifest)
    (tree : Tree) (l : List String) :
    ∀ acc, (∀ e ∈ acc.2, ∃ content, lookupA tree e.1 = some content ∧
        e.2 = sha256Hex content) →
      ∀ e ∈ (l.foldl (hashUploadStep plat pfx m tree) acc).2,
        ∃ content, lookupA tree e.1 = some content ∧ e.2 = sha256Hex content := by
  induction l with
  | nil => exact fun acc h => h
  | cons q rest ih =>
    intro acc hacc
    simp only [List.foldl_cons]
    apply ih
    intro e he
    unfold hashUploadStep at he
    rcases hq : lookupA tree q with _ | c
    · rw [hq] at he
      exact hacc e he
    · rw [hq] at he
      simp only [] at he
      split at he
      · exact hacc e he
      · rcases List.mem_append.1 he with he' | he'
        · exact hacc e he'
        · rcases List.mem_singleton.1 he' with rfl
          exact ⟨c, hq, rfl⟩

theorem trackInterleaved_tree (plat : Platform) (pfx : String) (st : EngineState)
    (path : String) : (trackInterleaved plat pfx st path).1.tree = st.tree := by
  simp only [trackInterleaved]
  split <;> rfl

theorem trackInterleaved_manifest_lookup (plat : Platform) (pfx : String)
    (st : EngineState) (path : String) (hsync : st.manifest = st.manifestDisk)
    (p : String) (hp : p ∈ resolveFilesystemPaths (st.tree.map Prod.fst) path)
    {content : Bytes} (hct : lookupA st.tree p = some content) :
    lookupA (trackInterleaved plat pfx st path).1.manifest.files p
      = some (sha256Hex content) := by
  have hW1 := foldl_hashUpload_covers plat pfx st.manifest st.tree
    (resolveFilesystemPaths (st.tree.map Prod.fst) path) (st.s3, []) p hp content hct
  have hW2 := foldl_hashUpload_sound plat pfx st.manifest st.tree
    (resolveFilesystemPaths (st.tree.map Prod.fst) path) (st.s3, [])
    (by intro e he; cases he)
  simp only [trackInterleaved]
  by_cases hE : ((resolveFilesystemPaths (st.tree.map Prod.fst) path).foldl
      (hashUploadStep plat pfx st.manifest st.tree) (st.s3, [])).2.isEmpty = true
  · rw [if_pos hE]
    rcases hW1 with h | h
    · exact h
    · rw [List.isEmpty_iff] at hE
      rw [hE] at h
      cases h
  · rw [if_neg hE]
    show lookupA (((resolveFilesystemPaths (st.tree.map Prod.fst) path).foldl
        (hashUploadStep plat pfx st.manifest st.tree) (st.s3, [])).2.foldl
        (fun fs e => insertAssoc fs e.1 e.2) st.manifestDisk.files) p
      = some (sha256Hex content)
    by_cases hm : p ∈ (((resolveFilesystemPaths (st.tree.map Prod.fst) path).foldl
        (hashUploadStep plat pfx st.manifest st.tree) (st.s3, [])).2).map Prod.fst
    · apply foldl_insertAssoc_lookup_mem _ _ _ _ hm
      intro e he hfst
      obtain ⟨c', hc', hv⟩ := hW2 e he
      rw [hfst, hct] at hc'
      cases hc'
      exact hv
    · rw [foldl_insertAssoc_lookup_notmem _ _ _ hm, ← hsync]
      rcases hW1 with h | h
      · exact h
      · exact absurd (List.mem_map.2 ⟨(p, sha256Hex content), h, rfl⟩) hm

/-- Claim C7: running track(P) (the interleaved default) a second time with
no intervening filesystem changes uploads nothing — every worker finds the
freshly computed digest equal to the stored one and skips — and returns an
unchanged state: the persisted manifest (and hence its serialized bytes,
the render being a function of the document) is byte-identical, and the
object store receives nothing new.  The hypothesis says the in-memory
manifest agrees with the on-disk one, which load_manifest establishes for
a single engine. -/
theorem track_interleaved_idempotent (plat : Platform) (pfx : String)
    (st : EngineState) (path : String) (hsync : st.manifest = st.manifestDisk) :
    (trackInterleaved plat pfx (trackInterleaved plat pfx st path).1 path).2 = 0 ∧
    (trackInterleaved plat pfx (trackInterleaved plat pfx st path).1 path).1
      = (trackInterleaved plat pfx st path).1 ∧
    renderFiles
        (trackInterleaved plat pfx
          (trackInterleaved plat pfx st path).1 path).1.manifestDisk.files
      = renderFiles (trackInterleaved plat pfx st path).1.manifestDisk.files := by
  have htree := trackInterleaved_tree plat pfx st path
  have hlook : ∀ p ∈ resolveFilesystemPaths (st.tree.map Prod.fst) path,
      ∀ content : Bytes, lookupA st.tree p = some content →
        lookupA (trackInterleaved plat pfx st path).1.manifest.files p
          = some (sha256Hex content) :=
    fun p hp content hct =>
      trackInterleaved_manifest_lookup plat pfx st path hsync p hp hct
  have hrun2 : trackInterleaved plat pfx (trackInterleaved plat pfx st path).1 path
      = ((trackInterleaved plat pfx st path).1, 0) := by
    generalize hs1 : (trackInterleaved plat pfx st path).1 = s1 at htree hlook
    have hsteps : ∀ p ∈ resolveFilesystemPaths (s1.tree.map Prod.fst) path,
        ∀ acc, hashUploadStep plat pfx s1.manifest s1.tree acc p = acc := by
      intro p hp acc
      rw [htree] at hp
      have hmem := resolveFilesystemPaths_subset _ _ p hp
      obtain ⟨content, hct⟩ := lookupA_isSome_of_mem hmem
      have hlk : lookupA s1.manifest.files p = some (sha256Hex content) :=
        hlook p hp content hct
      simp only [hashUploadStep, htree, hct]
      rw [if_pos hlk]
    simp only [trackInterleaved]
    rw [foldl_id_of_steps_id _ _ hsteps (s1.s3, [])]
    simp
  exact ⟨by rw [hrun2], by rw [hrun2], by rw [hrun2]⟩

/-- Claim C7, witness: a two-file tree with an empty starting manifest; the
first run uploads both files, the second uploads nothing and leaves the
state unchanged. -/
theorem track_interleaved_idempotent_witness :
    (trackInterleaved Platform.otherOrNoGzip "s3lfs"
        (trackInterleaved Platform.otherOrNoGzip "s3lfs"
          (EngineState.mk [("a.txt", [65]), ("b.txt", [66])]
            (Manifest.mk (some "bkt") (some "s3lfs") [])
            (Manifest.mk (some "bkt") (some "s3lfs") []) [])
          "a.txt").1 "a.txt").2 = 0 ∧
    (trackInterleaved Platform.otherOrNoGzip "s3lfs"
        (trackInterleaved Platform.otherOrNoGzip "s3lfs"
          (EngineState.mk [("a.txt", [65]), ("b.txt", [66])]
            (Manifest.mk (some "bkt") (some "s3lfs") [])
            (Manifest.mk (some "bkt") (some "s3lfs") []) [])
          "a.txt").1 "a.txt").1
      = (trackInterleaved Platform.otherOrNoGzip "s3lfs"
          (EngineState.mk [("a.txt", [65]), ("b.txt", [66])]
            (Manifest.mk (some "bkt") (some "s3lfs") [])
            (Manifest.mk (some "bkt") (some "s3lfs") []) [])
          "a.txt").1 ∧
    renderFiles
        (trackInterleaved Platform.otherOrNoGzip "s3lfs"
          (trackInterleaved Platform.otherOrNoGzip "s3lfs"
            (EngineState.mk [("a.txt", [65]), ("b.txt", [66])]
              (Manifest.mk (some "bkt") (some "s3lfs") [])
              (Manifest.mk (some "bkt") (some "s3lfs") []) [])
            "a.txt").1 "a.txt").1.manifestDisk.files
      = renderFiles
          (trackInterleaved Platform.otherOrNoGzip "s3lfs"
            (EngineState.mk [("a.txt", [65]), ("b.txt", [66])]
              (Manifest.mk (some "bkt") (some "s3lfs") [])
              (Manifest.mk (some "bkt") (some "s3lfs") []) [])
            "a.txt").1.manifestDisk.files :=
  track_interleaved_idempotent Platform.otherOrNoGzip "s3lfs"
    (EngineState.mk [("a.txt", [65]), ("b.txt", [66])]
      (Manifest.mk (some "bkt") (some "s3lfs") [])
      (Manifest.mk (some "bkt") (some "s3lfs") []) [])
    "a.txt" rfl

/-! ## Claim C3 -/

theorem tokenizeAux_lit (l : List Char)
    (h : ∀ c ∈ l, c ≠ '*' ∧ c ≠ '?' ∧ c ≠ '[') :
    tokenizeAux (l.length + 1) l = l.map Tok.lit := by
  induction l with
  | nil => rfl
  | cons c p ih =>
    obtain ⟨h1, h2, h3⟩ := h c (List.mem_cons_self c p)
    show tokenizeAux (p.length + 1 + 1) (c :: p) = Tok.lit c :: p.map Tok.lit
    simp only [tokenizeAux]
    rw [if_neg h1, if_neg h2, if_neg h3]
    rw [ih (fun x hx => h x (List.mem_cons_of_mem c hx))]

theorem matchToks_lit (pat : List Char) :
    ∀ s, matchToks (pat.map Tok.lit) s = true ↔ s = pat := by
  induction pat with
  | nil =>
    intro s
    cases s <;> simp [matchToks, List.isEmpty]
  | cons c p ih =>
    intro s
    cases s with
    | nil => simp [matchToks]
    | cons c' s' =>
      simp only [List.map_cons, matchToks, Bool.and_eq_true, decide_eq_true_eq]
      constructor
      · intro hand
        rw [(ih s').1 hand.2, hand.1]
      · intro he
        injection he with he1 he2
        exact ⟨he1.symm, (ih s').2 he2⟩

theorem fnmatchChars_lit (s pat : List Char)
    (h : ∀ c ∈ pat, c ≠ '*' ∧ c ≠ '?' ∧ c ≠ '[') :
    fnmatchChars s pat = true ↔ s = pat := by
  unfold fnmatchChars tokenize
  rw [tokenizeAux_lit pat h]
  exact matchToks_lit pat s

theorem mem_of_mem_splitSegs {c : Char} :
    ∀ {l seg : List Char}, seg ∈ splitSegs l → c ∈ seg → c ∈ l := by
  intro l
  induction l with
  | nil =>
    intro seg hseg hc
    simp only [splitSegs, List.mem_singleton] at hseg
    subst hseg
    cases hc
  | cons a rest ih =>
    intro seg hseg hc
    simp only [splitSegs] at hseg
    split at hseg
    · rcases List.mem_cons.1 hseg with rfl | hseg'
      · cases hc
      · exact List.mem_cons_of_mem a (ih hseg' hc)
    · rcases hsp : splitSegs rest with _ | ⟨s, ss⟩
      · exact absurd hsp (splitSegs_ne_nil rest)
      · rw [hsp] at hseg
        rcases List.mem_cons.1 hseg with rfl | hseg'
        · rcases List.mem_cons.1 hc with rfl | hc'
          · exact List.mem_cons_self c rest
          · refine List.mem_cons_of_mem a (ih ?_ hc')
            rw [hsp]
            exact List.mem_cons_self s ss
        · refine List.mem_cons_of_mem a (ih ?_ hc)
          rw [hsp]
          exact List.mem_cons_of_mem s hseg'

theorem no_special_of_not_hasGlobChars {P : String} (h : hasGlobChars P = false) :
    ∀ c ∈ P.data, c ≠ '*' ∧ c ≠ '?' ∧ c ≠ '[' := by
  intro c hc
  unfold hasGlobChars at h
  rw [List.any_eq_false] at h
  have := h c hc
  simp only [Bool.or_eq_true, decide_eq_true_eq, not_or] at this
  exact ⟨this.1.1.1, this.1.1.2, this.1.2⟩

theorem patSegsMatch_lit (ps : List (List Char))
    (h : ∀ seg ∈ ps, ∀ c ∈ seg, c ≠ '*' ∧ c ≠ '?' ∧ c ≠ '[') :
    ∀ segs, patSegsMatch ps segs = true ↔ ps = segs := by
  induction ps with
  | nil =>
    intro segs
    cases segs <;> simp [patSegsMatch, List.isEmpty]
  | cons p ps' ih =>
    intro segs
    have hp := h p (List.mem_cons_self p ps')
    have hpstar : ¬ p = ['*', '*'] := by
      intro he
      subst he
      exact (hp '*' (List.mem_cons_self _ _)).1 rfl
    simp only [patSegsMatch]
    rw [if_neg hpstar]
    cases segs with
    | nil => simp
    | cons s ss =>
      simp only [Bool.and_eq_true]
      constructor
      · intro hand
        rw [(fnmatchChars_lit s p hp).1 hand.1,
          (ih (fun g hg => h g (List.mem_cons_of_mem p hg)) ss).1 hand.2]
      · intro he
        injection he with he1 he2
        exact ⟨(fnmatchChars_lit s p hp).2 he1.symm,
          (ih (fun g hg => h g (List.mem_cons_of_mem p hg)) ss).2 he2⟩

theorem resolveManifestPaths_plain (files : FilesMap) (P : String)
    (hnone : lookupA files P = none) (hglob : hasGlobChars P = false)
    (hslash : strEndsWithSlash P = false) :
    resolveManifestPaths files P
      = (if ¬ (files.filter (fun e => strStartsWith e.1 (P ++ "/"))).isEmpty
         then files.filter (fun e => strStartsWith e.1 (P ++ "/"))
         else files.filter (fun e => e.1 = P)) := by
  unfold resolveManifestPaths
  rw [hnone]
  simp only [hglob, Bool.false_eq_true, if_false, hslash]

/-- Claim C3, counterexample: the claim quantifies over every pattern.  At
the glob pattern "data/\x2a\x2a/\x2a.txt" on a working tree equal to the
tracked set \x7bdata/c.txt, database.txt\x7d, the filesystem-side resolver
matches only data/c.txt (pathlib "\x2a\x2a" matches whole segments) while
the manifest-side resolver also matches database.txt (its "\x2a\x2a"
handling splits on the substring and compares by str.startswith, so the
prefix "data" also matches "database.txt"). -/
theorem resolver_equiv_counterexample :
    resolveFilesystemPaths ["data/c.txt", "database.txt"] "data/**/*.txt"
      = ["data/c.txt"] ∧
    (resolveManifestPaths [("data/c.txt", "h1"), ("database.txt", "h2")]
        "data/**/*.txt").map Prod.fst
      = ["data/c.txt", "database.txt"] ∧
    (["data/c.txt", "database.txt"] : List String)
      = ([("data/c.txt", "h1"), ("database.txt", "h2")] : FilesMap).map Prod.fst := by
  decide

/-- Claim C3, amended: the equivalence holds for every pattern WITHOUT glob
metacharacters that is a normalised relative path: on a working tree whose
files are exactly the manifest's tracked set, the filesystem-side resolver
returns exactly the keys the manifest-side resolver returns (an existing
file resolves to itself, a directory to the entries under it, anything
else to nothing).  For glob patterns the two resolvers genuinely diverge
(see the counterexample). -/
theorem resolver_equiv_plain_patterns (files : FilesMap) (P : String)
    (hnorm : normalizedPath P = true) (hglob : hasGlobChars P = false) :
    resolveFilesystemPaths (files.map Prod.fst) P
      = (resolveManifestPaths files P).map Prod.fst := by
  have hspecial := no_special_of_not_hasGlobChars hglob
  have hslash : strEndsWithSlash P = false := by
    unfold normalizedPath at hnorm
    rw [Bool.and_eq_true] at hnorm
    simpa using hnorm.1
  by_cases hfile : isFileIn (files.map Prod.fst) P = true
  · have hmem : P ∈ files.map Prod.fst := by simpa [isFileIn] using hfile
    obtain ⟨v, hl⟩ := lookupA_isSome_of_mem hmem
    unfold resolveFilesystemPaths
    rw [if_pos hfile]
    unfold resolveManifestPaths
    rw [hl]
    rfl
  · have hnotmem : P ∉ files.map Prod.fst := fun hmem =>
      hfile (by simpa [isFileIn] using hmem)
    have hnone : lookupA files P = none := (lookupA_eq_none_iff files P).2 hnotmem
    rw [resolveManifestPaths_plain files P hnone hglob hslash]
    by_cases hdir : isDirIn (files.map Prod.fst) P = true
    · -- a directory: both sides filter by the "P/" prefix
      have hne : ¬ (files.filter (fun e => strStartsWith e.1 (P ++ "/"))).isEmpty = true := by
        unfold isDirIn at hdir
        rw [List.any_eq_true] at hdir
        obtain ⟨f, hf, hpre⟩ := hdir
        rcases List.mem_map.1 hf with ⟨e, he, hfe⟩
        intro hemp
        have : e ∈ files.filter (fun e => strStartsWith e.1 (P ++ "/")) :=
          List.mem_filter.2 ⟨he, by rw [hfe]; exact hpre⟩
        rw [List.isEmpty_iff.1 hemp] at this
        cases this
      rw [if_pos hne]
      unfold resolveFilesystemPaths
      rw [if_neg hfile, if_pos hdir]
      exact (map_fst_filter_key files (fun k => strStartsWith k (P ++ "/"))).symm
    · -- neither a file nor a directory: both sides resolve to nothing
      have hemp : (files.filter (fun e => strStartsWith e.1 (P ++ "/"))).isEmpty = true := by
        rw [List.isEmpty_iff, List.filter_eq_nil_iff]
        intro e he
        intro hpre
        unfold isDirIn at hdir
        apply hdir
        rw [List.any_eq_true]
        exact ⟨e.1, List.mem_map.2 ⟨e, he, rfl⟩, hpre⟩
      rw [if_neg (by simp [hemp])]
      have heq : files.filter (fun e => e.1 = P) = [] := by
        rw [List.filter_eq_nil_iff]
        intro e he hP
        simp only [decide_eq_true_eq] at hP
        exact hnotmem (List.mem_map.2 ⟨e, he, hP⟩)
      rw [heq]
      unfold resolveFilesystemPaths
      rw [if_neg hfile, if_neg hdir]
      have hsegsP : ∀ seg ∈ splitSegs P.data, ∀ c ∈ seg, c ≠ '*' ∧ c ≠ '?' ∧ c ≠ '[' :=
        fun seg hseg c hc => hspecial c (mem_of_mem_splitSegs hseg hc)
      by_cases hlen : (pathSegs P).length > 1
      · rw [if_pos hlen]
        simp only [List.map_nil]
        rw [List.filter_eq_nil_iff]
        intro f hf hmatch
        have : pathSegs P = pathSegs f :=
          (patSegsMatch_lit (pathSegs P) hsegsP (pathSegs f)).1 hmatch
        have hfeq : f = P := by
          have hd := splitSegs_injective this
          exact congrArg String.mk hd.symm
        rw [hfeq] at hf
        exact hnotmem hf
      · rw [if_neg hlen]
        simp only [List.map_nil]
        rw [List.filter_eq_nil_iff]
        intro f hf hmatch
        rw [Bool.and_eq_true] at hmatch
        have hfn : fnmatchChars f.data P.data = true := by
          have := hmatch.2
          unfold globSingleMatch at this
          rw [Bool.and_eq_true] at this
          exact this.2
        have hfeq : f = P := by
          have hd := (fnmatchChars_lit f.data P.data hspecial).1 hfn
          exact congrArg String.mk hd
        rw [hfeq] at hf
        exact hnotmem hf

/-- Claim C3, witness: the amended equivalence at the glob-free directory
pattern "data" on the counterexample's manifest: both resolvers return
exactly data/c.txt and neither touches database.txt. -/
theorem resolver_equiv_plain_patterns_witness :
    resolveFilesystemPaths
        (([("data/c.txt", "h1"), ("database.txt", "h2")] : FilesMap).map Prod.fst) "data"
      = (resolveManifestPaths [("data/c.txt", "h1"), ("database.txt", "h2")]
          "data").map Prod.fst :=
  resolver_equiv_plain_patterns [("data/c.txt", "h1"), ("database.txt", "h2")] "data"
    (by decide) (by decide)

end S3LFS


